import Mathlib

set_option maxRecDepth 2048

/-!
Verification development for `src/AnalyzeTrades.py`.

The embedding is value-level:
* a spreadsheet row is a `RawRow` of three cell strings;
* profits become `Rat` (the script's floats carry exact decimal values here);
* `pd.to_datetime` is embedded as a digit-string parser producing an integer
  time in seconds, and the calendar-date component of a timestamp is the
  integer day `t / 86400`; calendar months are abstracted as fixed blocks of
  31 days (no claim depends on month boundaries);
* fallible pandas operations (`astype(float)`, `to_datetime`, and `pd.concat`
  on an empty list, which raises `No objects to concatenate`) are embedded
  with `Option`/`Except`;
* `calculate_statistics` mutates its argument (`df['Date'] = ...`), so its
  embedding returns the statistics tuple together with the post-call state of
  the caller's frame.
-/

/-- One raw spreadsheet row as read by `pd.read_excel`: the `Entry time`,
`Profit` and `Strategy` cells, still unparsed. -/
structure RawRow where
  entry_time : String
  profit : String
  strategy : String
deriving DecidableEq

/-- A row after the per-file profit normalization performed inside the loop of
`load_and_merge_files` (line 13 of the script). -/
structure StagedRow where
  entry_time : String
  profit : Rat
  strategy : String
deriving DecidableEq

/-- A fully parsed trade record.  `date` models the `Date` column that
`calculate_statistics` writes into the frame (line 27); it is absent (`none`)
until that happens. -/
structure TradeRecord where
  entry_time : Nat
  profit : Rat
  strategy : String
  date : Option Nat := none
deriving DecidableEq

/-- Numeric value of a digit string, most significant digit first. -/
def digitsToNat (cs : List Char) : Nat :=
  cs.foldl (fun n c => 10 * n + (c.toNat - 48)) 0

/-- The two chained regex replacements of line 13:
`replace('[\$,)]', '')` deletes every `$`, `,` and `)`, then
`replace('[(]', '-')` turns every `(` into `-`. -/
def stripProfitChars (cs : List Char) : List Char :=
  cs.filterMap (fun c =>
    if c = '$' ∨ c = ',' ∨ c = ')' then none
    else if c = '(' then some '-' else some c)

/-- The rational value of a parsed decimal numeral: sign, integer part,
fractional part and fractional length. -/
def ratOfParts (neg : Bool) (ipv fpv flen : Nat) : Rat :=
  (cond neg (-1 : Rat) 1) * ((ipv : Rat) + (fpv : Rat) / ((10 : Rat) ^ flen))

/-- `astype(float)` on a cleaned cell: an optional leading minus sign, then a
decimal numeral with at most one dot and at least one digit.  Any other shape
raises in the script and is `none` here. -/
def parseFloat (cs : List Char) : Option Rat :=
  let body := if cs.head? = some '-' then cs.tail else cs
  let ip := body.takeWhile (fun c => c != '.')
  let rest := body.dropWhile (fun c => c != '.')
  match rest with
  | [] =>
    if ip ≠ [] ∧ ip.all Char.isDigit
    then some (ratOfParts (cs.head? == some '-') (digitsToNat ip) 0 0)
    else none
  | _ :: fp =>
    if (ip ≠ [] ∨ fp ≠ []) ∧ ip.all Char.isDigit ∧ fp.all Char.isDigit
    then some (ratOfParts (cs.head? == some '-') (digitsToNat ip) (digitsToNat fp) fp.length)
    else none

/-- Normalization of one `Profit` cell: the regex cleanup followed by the
float conversion (line 13 of the script). -/
def normalizeProfit (s : String) : Option Rat :=
  parseFloat (stripProfitChars s.data)

/-- `pd.to_datetime` on one `Entry time` cell, embedded as a digit-string
parser for an integer timestamp in seconds; a non-numeric cell raises in the
script and is `none` here. -/
def parseEntryTime (s : String) : Option Nat :=
  if s.data ≠ [] ∧ s.data.all Char.isDigit then some (digitsToNat s.data) else none

/-- Profit normalization of a whole source file (the loop body of
`load_and_merge_files`): every row's `Profit` must convert, otherwise the
whole conversion raises. -/
def parseProfitCol : List RawRow → Option (List StagedRow)
  | [] => some []
  | r :: rs =>
    match normalizeProfit r.profit, parseProfitCol rs with
    | some p, some rest =>
      some ({ entry_time := r.entry_time, profit := p, strategy := r.strategy } :: rest)
    | _, _ => none

/-- The loop of `load_and_merge_files` over all uploaded files. -/
def stageFiles : List (List RawRow) → Option (List (List StagedRow))
  | [] => some []
  | f :: fs =>
    match parseProfitCol f, stageFiles fs with
    | some sf, some rest => some (sf :: rest)
    | _, _ => none

/-- `pd.to_datetime(merged_df['Entry time'])` (line 17): every entry-time cell
of the merged frame must parse, otherwise the call raises. -/
def parseTimeCol : List StagedRow → Option (List TradeRecord)
  | [] => some []
  | r :: rs =>
    match parseEntryTime r.entry_time, parseTimeCol rs with
    | some t, some rest =>
      some ({ entry_time := t, profit := r.profit, strategy := r.strategy } :: rest)
    | _, _ => none

/-- `load_and_merge_files` (lines 7-18): per-file profit normalization, then
`pd.concat` (which raises `No objects to concatenate` when the list of frames
is empty), then entry-time parsing on the merged frame. -/
def load_and_merge_files (files : List (List RawRow)) : Except String (List TradeRecord) :=
  match stageFiles files with
  | none => Except.error ("could not convert string to float")
  | some staged =>
    if files = [] then Except.error ("No objects to concatenate")
    else
      match parseTimeCol staged.flatten with
      | none => Except.error ("Unknown datetime string format")
      | some recs => Except.ok recs

/-- Order on trade records by entry time, the key of
`merged_df.sort_values(by='Entry time')` (line 65). -/
def entryLE (a b : TradeRecord) : Prop := a.entry_time ≤ b.entry_time

instance : DecidableRel entryLE := fun a b => Nat.decLe a.entry_time b.entry_time

instance : IsTotal TradeRecord entryLE := ⟨fun a b => Nat.le_total a.entry_time b.entry_time⟩

instance : IsTrans TradeRecord entryLE := ⟨fun _ _ _ h1 h2 => Nat.le_trans h1 h2⟩

/-- `merged_df.sort_values(by='Entry time')` (line 65): a sort of the merged
records by entry time.  The script requests numpy's default sort kind; the
embedding uses an insertion sort, whose ordering of equal keys is a model
artifact and is not relied on by any theorem below. -/
def sortByEntryTime (l : List TradeRecord) : List TradeRecord :=
  List.insertionSort entryLE l

/-- The calendar-date component of a timestamp (`.dt.date`, line 27),
embedded as the integer day index. -/
def dayOf (t : Nat) : Nat := t / 86400

/-- The calendar-month component of a timestamp (`.dt.to_period('M')`,
line 31), abstracted as a fixed 31-day block index. -/
def monthOf (t : Nat) : Nat := dayOf t / 31

/-- `.mean()` of a numeric series. -/
def listMean (l : List Rat) : Rat := l.sum / (l.length : Rat)

/-- The distinct `Date` keys of `df.groupby('Date')`, in the ascending order
pandas produces for group keys. -/
def datesOf (df : List TradeRecord) : List Nat :=
  List.insertionSort (fun a b => a ≤ b) ((df.map (fun r => dayOf r.entry_time)).dedup)

/-- The distinct month keys of the groupby on `Entry time` periods, ascending. -/
def monthsOf (df : List TradeRecord) : List Nat :=
  List.insertionSort (fun a b => a ≤ b) ((df.map (fun r => monthOf r.entry_time)).dedup)

/-- `df.groupby('Date')['Profit'].sum()` (lines 30/34): one entry per distinct
trading date in ascending date order, carrying the summed profit of that day. -/
def daily_profits (df : List TradeRecord) : List (Nat × Rat) :=
  (datesOf df).map (fun d =>
    (d, ((df.filter (fun r => decide (dayOf r.entry_time = d))).map (fun r => r.profit)).sum))

/-- `df.groupby('Date').size().mean()` (line 29). -/
def trades_per_day (df : List TradeRecord) : Rat :=
  listMean ((datesOf df).map (fun d =>
    ((df.filter (fun r => decide (dayOf r.entry_time = d))).length : Rat)))

/-- `df.groupby('Date')['Profit'].sum().mean()` (line 30). -/
def profit_per_day (df : List TradeRecord) : Rat :=
  listMean ((daily_profits df).map (fun p => p.2))

/-- `df.groupby(df['Entry time'].dt.to_period('M'))['Profit'].sum().mean()`
(line 31). -/
def profit_per_month (df : List TradeRecord) : Rat :=
  listMean ((monthsOf df).map (fun m =>
    ((df.filter (fun r => decide (monthOf r.entry_time = m))).map (fun r => r.profit)).sum))

/-- `loss_days = daily_profits < 0` (line 35): each trading date tagged with
its loss classification. -/
def loss_days (df : List TradeRecord) : List (Nat × Bool) :=
  (daily_profits df).map (fun p => (p.1, decide (p.2 < 0)))

/-- One step of grouping the classified series into maximal runs of equal
classification: prepend a day to the run list, merging it into the first run
when the classification matches.  Together with `splitRuns` this embeds
`streak_id = (loss_days != loss_days.shift()).cumsum()` followed by
`groupby(streak_id)` (lines 38-39), which partitions the series into maximal
runs of equal loss-classification. -/
def addToRuns (x : Nat × Bool) : List (List (Nat × Bool)) → List (List (Nat × Bool))
  | (y :: ys) :: rest =>
    if x.2 = y.2 then (x :: y :: ys) :: rest else [x] :: (y :: ys) :: rest
  | other => [x] :: other

/-- The partition of the classified daily series into maximal runs of equal
loss-classification, in series order. -/
def splitRuns (l : List (Nat × Bool)) : List (List (Nat × Bool)) :=
  l.foldr addToRuns []

/-- A row of the streak table: `Consecutive Loss Days` and `Start Date`
(lines 49-52; the start date is kept as a day index rather than a formatted
string). -/
structure LossStreakRow where
  consecutiveLossDays : Nat
  startDate : Nat
deriving DecidableEq

/-- The aggregation of one streak group (lines 39-46): a group whose
classification is loss (`min == True`, hence nonempty with `sum >= 1`) yields
its size and the date of its first member; any other group is dropped. -/
def toStreak : List (Nat × Bool) → Option LossStreakRow
  | [] => none
  | (d, b) :: t => if b then some { consecutiveLossDays := t.length + 1, startDate := d } else none

/-- The loss classification of a run (the classification of its first day). -/
def runIsLoss : List (Nat × Bool) → Bool
  | [] => false
  | (_, b) :: _ => b

/-- `streaks_df` (lines 49-52): the loss streaks of the daily series, in
series order. -/
def streaks_df (df : List TradeRecord) : List LossStreakRow :=
  (splitRuns (loss_days df)).filterMap toStreak

/-- `df['Date'] = pd.to_datetime(df['Entry time']).dt.date` (line 27): the
in-place write of the derived `Date` column into the caller's frame. -/
def withDateColumn (df : List TradeRecord) : List TradeRecord :=
  df.map (fun r => { r with date := some (dayOf r.entry_time) })

/-- `calculate_statistics` (lines 21-54).  The first component is the returned
tuple `(trades_per_day, profit_per_day, profit_per_month, streaks_df,
daily_profits)`; the second component is the state of the caller's frame after
the call (unchanged when the frame is empty, otherwise with the `Date` column
written in place). -/
def calculate_statistics (df : List TradeRecord) :
    (Rat × Rat × Rat × List LossStreakRow × List (Nat × Rat)) × List TradeRecord :=
  if df = [] then ((0, 0, 0, [], []), df)
  else
    ((trades_per_day (withDateColumn df), profit_per_day (withDateColumn df),
      profit_per_month (withDateColumn df), streaks_df (withDateColumn df),
      daily_profits (withDateColumn df)), withDateColumn df)

/-- The five-day scenario of the spec: profits -5, -3, +2, -1, -1 on five
consecutive trading days (days 1 to 5). -/
def exFiveDays : List TradeRecord :=
  [ { entry_time := 1 * 86400, profit := -5, strategy := "A" },
    { entry_time := 2 * 86400, profit := -3, strategy := "A" },
    { entry_time := 3 * 86400, profit := 2, strategy := "A" },
    { entry_time := 4 * 86400, profit := -1, strategy := "A" },
    { entry_time := 5 * 86400, profit := -1, strategy := "A" } ]

/-- A one-record frame used to exhibit the in-place `Date` write of
`calculate_statistics`. -/
def frameProbe : List TradeRecord :=
  [ { entry_time := 0, profit := 1, strategy := "A" } ]

/-- One-row sources used to instantiate the merge theorems. -/
def wf1 : List RawRow := [ { entry_time := "172800", profit := "5", strategy := "A" } ]

/-- Second one-row source for the merge theorems. -/
def wf2 : List RawRow := [ { entry_time := "86400", profit := "(2)", strategy := "B" } ]

/-- The record list produced by loading `wf1` and `wf2`. -/
def wl : List TradeRecord :=
  [ { entry_time := 172800, profit := 5, strategy := "A" },
    { entry_time := 86400, profit := -2, strategy := "B" } ]

/-- A row whose profit cell does not normalize. -/
def wBadRow : RawRow := { entry_time := "100", profit := "abc", strategy := "A" }

/-- A row that parses completely. -/
def wGoodRow : RawRow := { entry_time := "86400", profit := "$5", strategy := "A" }

/-- C1: on the daily profit series [-5, -3, +2, -1, -1] over five consecutive
trading days, `calculate_statistics` reports exactly two loss streaks, of
length 2 starting at day 1 and length 2 starting at day 4, and
`avg_profit_per_day` equals -1.6. -/
theorem scenario_five_days :
    ((calculate_statistics exFiveDays).1).2.2.2.1
        = [ { consecutiveLossDays := 2, startDate := 1 },
            { consecutiveLossDays := 2, startDate := 4 } ]
      ∧ ((calculate_statistics exFiveDays).1).2.1 = (-1.6 : Rat) := by
  constructor <;> with_unfolding_all decide

/-- C4: on an empty record set `calculate_statistics` returns zero for all
three averages together with an empty streak table and an empty daily series,
raising no error; the caller's frame is left untouched. -/
theorem calculate_statistics_empty :
    calculate_statistics []
      = ((0, 0, 0, ([] : List LossStreakRow), ([] : List (Nat × Rat))),
         ([] : List TradeRecord)) := rfl

/-- C3 counterexample: with zero sources `load_and_merge_files` does not
return a sequence at all (the claim says it returns an empty sequence and
does not raise); `pd.concat` of no frames raises. -/
theorem load_zero_sources_counterexample :
    ¬ ∃ recs : List TradeRecord, load_and_merge_files [] = Except.ok recs := by
  intro hex
  obtain ⟨recs, h⟩ := hex
  simp [load_and_merge_files, stageFiles] at h

/-- C3 amended: given zero sources `load_and_merge_files` raises pandas'
`No objects to concatenate` error instead of returning an empty sequence,
while the downstream statistics on an empty record set still degrade to the
defined defaults. -/
theorem load_zero_sources_behavior :
    load_and_merge_files [] = Except.error ("No objects to concatenate")
      ∧ (calculate_statistics []).1
          = (0, 0, 0, ([] : List LossStreakRow), ([] : List (Nat × Rat))) :=
  ⟨rfl, rfl⟩

/-- C5: profit normalization maps the accounting-negative string
`"(1,234.56)"` to -1234.56 and the currency-prefixed string `"$1,234.56"` to
1234.56. -/
theorem normalize_profit_examples :
    normalizeProfit ("(1,234.56)") = some ((-1234.56 : Rat))
      ∧ normalizeProfit ("$1,234.56") = some ((1234.56 : Rat)) := by
  constructor
  · have h1 : normalizeProfit ("(1,234.56)") = some (ratOfParts true 1234 56 2) := rfl
    rw [h1]
    norm_num [ratOfParts]
  · have h2 : normalizeProfit ("$1,234.56") = some (ratOfParts false 1234 56 2) := rfl
    rw [h2]
    norm_num [ratOfParts]

/-- C8 counterexample: `calculate_statistics` is not free of side effects on
its input; on a non-empty frame the caller's record collection is changed by
the call (the derived `Date` column is written in place, line 27 of the
script). -/
theorem calculate_statistics_mutates :
    (calculate_statistics frameProbe).2 ≠ frameProbe := by with_unfolding_all decide

/-- C8 amended: `calculate_statistics` retains no state between calls and
leaves the `entry_time`, `profit` and `strategy` fields of every record
unchanged, but it writes the derived `Date` column into the caller's frame in
place (so the frame itself is not unchanged on non-empty input). -/
theorem calculate_statistics_frame (df : List TradeRecord) :
    ((calculate_statistics df).2).map (fun r => (r.entry_time, r.profit, r.strategy))
      = df.map (fun r => (r.entry_time, r.profit, r.strategy)) := by
  by_cases h : df = []
  · simp [calculate_statistics, h]
  · simp [calculate_statistics, h, withDateColumn, List.map_map, Function.comp]

/-- Prepending a day to the run partition re-flattens to prepending the day to
the series. -/
theorem addToRuns_flatten (x : Nat × Bool) (L : List (List (Nat × Bool))) :
    (addToRuns x L).flatten = x :: L.flatten := by
  match L with
  | [] => simp [addToRuns]
  | [] :: rest => simp [addToRuns]
  | (y :: ys) :: rest =>
    by_cases h : x.2 = y.2 <;> simp [addToRuns, h]

/-- The run partition of a classified series flattens back to the series. -/
theorem splitRuns_flatten (l : List (Nat × Bool)) : (splitRuns l).flatten = l := by
  induction l with
  | nil => rfl
  | cons x xs ih =>
    have h : splitRuns (x :: xs) = addToRuns x (splitRuns xs) := rfl
    rw [h, addToRuns_flatten, ih]

/-- One grouping step preserves the run invariants: runs are nonempty, have a
constant classification, and adjacent runs have different classifications. -/
theorem addToRuns_ok (x : Nat × Bool) (L : List (List (Nat × Bool)))
    (hne : ∀ g ∈ L, g ≠ []) (hconst : ∀ g ∈ L, ∀ a ∈ g, ∀ b ∈ g, a.2 = b.2)
    (hchain : List.Chain' (fun g g' => ∀ a ∈ g, ∀ b ∈ g', a.2 ≠ b.2) L) :
    (∀ g ∈ addToRuns x L, g ≠ [])
    ∧ (∀ g ∈ addToRuns x L, ∀ a ∈ g, ∀ b ∈ g, a.2 = b.2)
    ∧ List.Chain' (fun g g' => ∀ a ∈ g, ∀ b ∈ g', a.2 ≠ b.2) (addToRuns x L) := by
  match L with
  | [] =>
    have hres : addToRuns x [] = [[x]] := rfl
    rw [hres]
    refine ⟨?_, ?_, ?_⟩
    · intro g hg
      rw [List.mem_singleton.mp hg]
      exact List.cons_ne_nil _ _
    · intro g hg a ha b hb
      rw [List.mem_singleton.mp hg] at ha hb
      rw [List.mem_singleton.mp ha, List.mem_singleton.mp hb]
    · exact List.chain'_singleton _
  | [] :: rest => exact absurd rfl (hne [] (List.mem_cons_self _ _))
  | (y :: ys) :: rest =>
    have hyconst : ∀ a ∈ y :: ys, a.2 = y.2 := fun a ha =>
      hconst (y :: ys) (List.mem_cons_self _ _) a ha y (List.mem_cons_self _ _)
    by_cases h : x.2 = y.2
    · have hres : addToRuns x ((y :: ys) :: rest) = (x :: y :: ys) :: rest := by
        simp [addToRuns, h]
      rw [hres]
      have hallc : ∀ a ∈ x :: y :: ys, a.2 = y.2 := by
        intro a ha
        rcases List.mem_cons.mp ha with rfl | ha'
        · exact h
        · exact hyconst a ha'
      refine ⟨?_, ?_, ?_⟩
      · intro g hg
        rcases List.mem_cons.mp hg with rfl | hg'
        · exact List.cons_ne_nil _ _
        · exact hne g (List.mem_cons_of_mem _ hg')
      · intro g hg a ha b hb
        rcases List.mem_cons.mp hg with rfl | hg'
        · rw [hallc a ha, hallc b hb]
        · exact hconst g (List.mem_cons_of_mem _ hg') a ha b hb
      · rw [List.chain'_cons'] at hchain ⊢
        refine ⟨?_, hchain.2⟩
        intro z hz a ha b hb
        rw [hallc a ha]
        exact hchain.1 z hz y (List.mem_cons_self _ _) b hb
    · have hres : addToRuns x ((y :: ys) :: rest) = [x] :: (y :: ys) :: rest := by
        simp [addToRuns, h]
      rw [hres]
      refine ⟨?_, ?_, ?_⟩
      · intro g hg
        rcases List.mem_cons.mp hg with rfl | hg'
        · exact List.cons_ne_nil _ _
        · exact hne g hg'
      · intro g hg a ha b hb
        rcases List.mem_cons.mp hg with rfl | hg'
        · rw [List.mem_singleton.mp ha, List.mem_singleton.mp hb]
        · exact hconst g hg' a ha b hb
      · rw [List.chain'_cons']
        refine ⟨?_, hchain⟩
        intro z hz a ha b hb
        simp only [List.head?_cons, Option.mem_def, Option.some.injEq] at hz
        subst hz
        rw [List.mem_singleton.mp ha, hyconst b hb]
        exact h

/-- The run partition of any classified series satisfies the run invariants. -/
theorem splitRuns_ok (l : List (Nat × Bool)) :
    (∀ g ∈ splitRuns l, g ≠ [])
    ∧ (∀ g ∈ splitRuns l, ∀ a ∈ g, ∀ b ∈ g, a.2 = b.2)
    ∧ List.Chain' (fun g g' => ∀ a ∈ g, ∀ b ∈ g', a.2 ≠ b.2) (splitRuns l) := by
  induction l with
  | nil =>
    refine ⟨?_, ?_, ?_⟩ <;> simp [splitRuns]
  | cons x xs ih =>
    have h : splitRuns (x :: xs) = addToRuns x (splitRuns xs) := rfl
    rw [h]
    exact addToRuns_ok x (splitRuns xs) ih.1 ih.2.1 ih.2.2

/-- The lengths of the loss runs (as reported in the streak table) and of the
non-loss runs add up to the total length of the run list. -/
theorem runs_length_split (L : List (List (Nat × Bool))) :
    ((L.filterMap toStreak).map (fun s => s.consecutiveLossDays)).sum
      + ((L.filter (fun g => !(runIsLoss g))).map List.length).sum
    = (L.map List.length).sum := by
  induction L with
  | nil => rfl
  | cons g rest ih =>
    match g with
    | [] =>
      simpa [toStreak, runIsLoss] using ih
    | (d, b) :: t =>
      cases b
      · simp [toStreak, runIsLoss] at ih ⊢
        omega
      · simp [toStreak, runIsLoss] at ih ⊢
        omega

/-- C2: for every non-empty input, the streak detection partitions the
per-day series: the loss-streak lengths plus the non-loss run lengths sum to
the number of distinct trading days; the runs flatten back to the classified
series; every run is nonempty with a constant loss-classification; and
adjacent runs carry different classifications (so no two adjacent days with
the same classification fall into different streak groups). -/
theorem streak_partition (df : List TradeRecord) (h : df ≠ []) :
    ((streaks_df df).map (fun s => s.consecutiveLossDays)).sum
        + (((splitRuns (loss_days df)).filter (fun g => !(runIsLoss g))).map List.length).sum
      = (datesOf df).length
    ∧ (splitRuns (loss_days df)).flatten = loss_days df
    ∧ (∀ g ∈ splitRuns (loss_days df), g ≠ [] ∧ ∀ a ∈ g, ∀ b ∈ g, a.2 = b.2)
    ∧ List.Chain' (fun g g' => ∀ a ∈ g, ∀ b ∈ g', a.2 ≠ b.2) (splitRuns (loss_days df)) := by
  obtain ⟨hne, hconst, hchain⟩ := splitRuns_ok (loss_days df)
  refine ⟨?_, splitRuns_flatten _, fun g hg => ⟨hne g hg, hconst g hg⟩, hchain⟩
  have h1 := runs_length_split (splitRuns (loss_days df))
  have h2 : ((splitRuns (loss_days df)).map List.length).sum = (loss_days df).length := by
    rw [← List.length_flatten, splitRuns_flatten]
  have h3 : (loss_days df).length = (datesOf df).length := by
    simp [loss_days, daily_profits]
  unfold streaks_df
  rw [h1, h2, h3]

/-- C2 witness: the partition invariant instantiated on the five-day
scenario. -/
theorem streak_partition_witness :
    exFiveDays ≠ []
    ∧ (((streaks_df exFiveDays).map (fun s => s.consecutiveLossDays)).sum
        + (((splitRuns (loss_days exFiveDays)).filter (fun g => !(runIsLoss g))).map List.length).sum
      = (datesOf exFiveDays).length
    ∧ (splitRuns (loss_days exFiveDays)).flatten = loss_days exFiveDays
    ∧ (∀ g ∈ splitRuns (loss_days exFiveDays), g ≠ [] ∧ ∀ a ∈ g, ∀ b ∈ g, a.2 = b.2)
    ∧ List.Chain' (fun g g' => ∀ a ∈ g, ∀ b ∈ g', a.2 ≠ b.2)
        (splitRuns (loss_days exFiveDays))) :=
  ⟨by decide, streak_partition exFiveDays (by decide)⟩

/-- Successful profit normalization of a file preserves the row count. -/
theorem parseProfitCol_length (f : List RawRow) (sf : List StagedRow)
    (h : parseProfitCol f = some sf) : sf.length = f.length := by
  induction f generalizing sf with
  | nil =>
    simp [parseProfitCol] at h
    subst h
    rfl
  | cons r rs ih =>
    simp only [parseProfitCol] at h
    rcases hn : normalizeProfit r.profit with _ | p <;> rw [hn] at h
    · simp at h
    · rcases hr : parseProfitCol rs with _ | rest <;> rw [hr] at h
      · simp at h
      · simp at h
        rw [← h]
        simp [ih rest hr]

/-- Successful profit normalization of a file preserves the entry-time cells. -/
theorem parseProfitCol_times (f : List RawRow) (sf : List StagedRow)
    (h : parseProfitCol f = some sf) :
    sf.map (fun r => r.entry_time) = f.map (fun r => r.entry_time) := by
  induction f generalizing sf with
  | nil =>
    simp [parseProfitCol] at h
    subst h
    rfl
  | cons r rs ih =>
    simp only [parseProfitCol] at h
    rcases hn : normalizeProfit r.profit with _ | p <;> rw [hn] at h
    · simp at h
    · rcases hr : parseProfitCol rs with _ | rest <;> rw [hr] at h
      · simp at h
      · simp at h
        rw [← h]
        simp [ih rest hr]

/-- A row whose profit does not normalize makes the whole file conversion
fail. -/
theorem parseProfitCol_none_of_bad (f : List RawRow) (row : RawRow)
    (hrow : row ∈ f) (hbad : normalizeProfit row.profit = none) :
    parseProfitCol f = none := by
  induction f with
  | nil => simp at hrow
  | cons r rs ih =>
    rcases List.mem_cons.mp hrow with rfl | hrow'
    · simp only [parseProfitCol]
      rw [hbad]
    · simp only [parseProfitCol]
      rw [ih hrow']
      rcases hn : normalizeProfit r.profit with _ | p <;> rfl

/-- When every profit of a file normalizes, the file conversion succeeds. -/
theorem parseProfitCol_total (f : List RawRow)
    (h : ∀ row ∈ f, (normalizeProfit row.profit).isSome) :
    ∃ sf, parseProfitCol f = some sf := by
  induction f with
  | nil => exact ⟨[], rfl⟩
  | cons r rs ih =>
    obtain ⟨sf, hsf⟩ := ih (fun row hr => h row (List.mem_cons_of_mem _ hr))
    have hr := h r (List.mem_cons_self _ _)
    rcases hn : normalizeProfit r.profit with _ | p
    · rw [hn] at hr
      simp at hr
    · refine ⟨{ entry_time := r.entry_time, profit := p, strategy := r.strategy } :: sf, ?_⟩
      simp only [parseProfitCol]
      rw [hn, hsf]

/-- A successful staging run preserves the per-file row counts. -/
theorem stageFiles_lengths (files : List (List RawRow)) (staged : List (List StagedRow))
    (h : stageFiles files = some staged) :
    staged.map List.length = files.map List.length := by
  induction files generalizing staged with
  | nil =>
    simp [stageFiles] at h
    subst h
    rfl
  | cons f fs ih =>
    simp only [stageFiles] at h
    rcases hp : parseProfitCol f with _ | sf <;> rw [hp] at h
    · simp at h
    · rcases hs : stageFiles fs with _ | rest <;> rw [hs] at h
      · simp at h
      · simp at h
        rw [← h]
        simp [parseProfitCol_length f sf hp, ih rest hs]

/-- A successful staging run preserves the entry-time cells of the merged
frame. -/
theorem stageFiles_times (files : List (List RawRow)) (staged : List (List StagedRow))
    (h : stageFiles files = some staged) :
    staged.flatten.map (fun r => r.entry_time) = files.flatten.map (fun r => r.entry_time) := by
  induction files generalizing staged with
  | nil =>
    simp [stageFiles] at h
    subst h
    rfl
  | cons f fs ih =>
    simp only [stageFiles] at h
    rcases hp : parseProfitCol f with _ | sf <;> rw [hp] at h
    · simp at h
    · rcases hs : stageFiles fs with _ | rest <;> rw [hs] at h
      · simp at h
      · simp at h
        rw [← h]
        simp [List.flatten_cons, parseProfitCol_times f sf hp, ih rest hs]

/-- A file with a row whose profit does not normalize makes the whole staging
run fail. -/
theorem stageFiles_none_of_bad (files : List (List RawRow)) (f : List RawRow)
    (hf : f ∈ files) (row : RawRow) (hrow : row ∈ f)
    (hbad : normalizeProfit row.profit = none) :
    stageFiles files = none := by
  induction files with
  | nil => simp at hf
  | cons f0 fs ih =>
    rcases List.mem_cons.mp hf with rfl | hf'
    · simp only [stageFiles]
      rw [parseProfitCol_none_of_bad _ row hrow hbad]
    · simp only [stageFiles]
      rw [ih hf']
      rcases hp : parseProfitCol f0 with _ | sf <;> rfl

/-- When every profit of every file normalizes, staging succeeds. -/
theorem stageFiles_total (files : List (List RawRow))
    (h : ∀ f ∈ files, ∀ row ∈ f, (normalizeProfit row.profit).isSome) :
    ∃ staged, stageFiles files = some staged := by
  induction files with
  | nil => exact ⟨[], rfl⟩
  | cons f fs ih =>
    obtain ⟨staged, hst⟩ := ih (fun f' hf' row hr => h f' (List.mem_cons_of_mem _ hf') row hr)
    obtain ⟨sf, hsf⟩ := parseProfitCol_total f (h f (List.mem_cons_self _ _))
    refine ⟨sf :: staged, ?_⟩
    simp only [stageFiles]
    rw [hsf, hst]

/-- Successful entry-time parsing preserves the row count. -/
theorem parseTimeCol_length (l : List StagedRow) (recs : List TradeRecord)
    (h : parseTimeCol l = some recs) : recs.length = l.length := by
  induction l generalizing recs with
  | nil =>
    simp [parseTimeCol] at h
    subst h
    rfl
  | cons r rs ih =>
    simp only [parseTimeCol] at h
    rcases ht : parseEntryTime r.entry_time with _ | t <;> rw [ht] at h
    · simp at h
    · rcases hr : parseTimeCol rs with _ | rest <;> rw [hr] at h
      · simp at h
      · simp at h
        rw [← h]
        simp [ih rest hr]

/-- A row whose entry time does not parse makes the whole time conversion
fail. -/
theorem parseTimeCol_none_of_bad (l : List StagedRow) (srow : StagedRow)
    (hrow : srow ∈ l) (hbad : parseEntryTime srow.entry_time = none) :
    parseTimeCol l = none := by
  induction l with
  | nil => simp at hrow
  | cons r rs ih =>
    rcases List.mem_cons.mp hrow with rfl | hrow'
    · simp only [parseTimeCol]
      rw [hbad]
    · simp only [parseTimeCol]
      rw [ih hrow']
      rcases ht : parseEntryTime r.entry_time with _ | t <;> rfl

/-- When every entry time of the merged frame parses, the time conversion
succeeds. -/
theorem parseTimeCol_total (l : List StagedRow)
    (h : ∀ srow ∈ l, (parseEntryTime srow.entry_time).isSome) :
    ∃ recs, parseTimeCol l = some recs := by
  induction l with
  | nil => exact ⟨[], rfl⟩
  | cons r rs ih =>
    obtain ⟨recs, hrecs⟩ := ih (fun srow hr => h srow (List.mem_cons_of_mem _ hr))
    have hr := h r (List.mem_cons_self _ _)
    rcases ht : parseEntryTime r.entry_time with _ | t
    · rw [ht] at hr
      simp at hr
    · refine ⟨{ entry_time := t, profit := r.profit, strategy := r.strategy } :: recs, ?_⟩
      simp only [parseTimeCol]
      rw [ht, hrecs]

/-- Unfolding of `load_and_merge_files` when staging fails. -/
theorem load_eq_of_stage_none (files : List (List RawRow))
    (hs : stageFiles files = none) :
    load_and_merge_files files = Except.error ("could not convert string to float") := by
  unfold load_and_merge_files
  rw [hs]

/-- Unfolding of `load_and_merge_files` when staging succeeds. -/
theorem load_eq_of_stage_some (files : List (List RawRow)) (staged : List (List StagedRow))
    (hs : stageFiles files = some staged) :
    load_and_merge_files files
      = (if files = [] then Except.error ("No objects to concatenate")
         else
           match parseTimeCol staged.flatten with
           | none => Except.error ("Unknown datetime string format")
           | some recs => Except.ok recs) := by
  unfold load_and_merge_files
  rw [hs]

/-- A successful load produces exactly the concatenated record count. -/
theorem load_ok_length (files : List (List RawRow)) (l : List TradeRecord)
    (h : load_and_merge_files files = Except.ok l) :
    l.length = (files.map List.length).sum := by
  rcases hs : stageFiles files with _ | staged
  · rw [load_eq_of_stage_none files hs] at h
    simp at h
  · rw [load_eq_of_stage_some files staged hs] at h
    by_cases he : files = []
    · rw [if_pos he] at h
      simp at h
    · rw [if_neg he] at h
      rcases hp : parseTimeCol staged.flatten with _ | recs <;> rw [hp] at h
      · simp at h
      · simp at h
        rw [← h, parseTimeCol_length _ _ hp, List.length_flatten,
          stageFiles_lengths files staged hs]

/-- C6: merging two sources of N1 and N2 records yields exactly N1 + N2
records (no deduplication), and after the sort step of the merge pipeline the
collection is sorted non-decreasing by entry time. -/
theorem merge_two_sources (f1 f2 : List RawRow) (l : List TradeRecord)
    (h : load_and_merge_files [f1, f2] = Except.ok l) :
    l.length = f1.length + f2.length
    ∧ (sortByEntryTime l).length = f1.length + f2.length
    ∧ List.Sorted entryLE (sortByEntryTime l) := by
  have hl := load_ok_length [f1, f2] l h
  simp at hl
  refine ⟨hl, ?_, List.sorted_insertionSort entryLE l⟩
  rw [sortByEntryTime, (List.perm_insertionSort entryLE l).length_eq, hl]

/-- C6 witness: loading the two concrete one-row sources `wf1` and `wf2`
yields two records whose sort is ordered by entry time. -/
theorem merge_two_sources_witness :
    load_and_merge_files [wf1, wf2] = Except.ok wl
    ∧ (wl.length = wf1.length + wf2.length
      ∧ (sortByEntryTime wl).length = wf1.length + wf2.length
      ∧ List.Sorted entryLE (sortByEntryTime wl)) :=
  ⟨by with_unfolding_all rfl, merge_two_sources wf1 wf2 wl (by with_unfolding_all rfl)⟩

/-- Every raw row of a staged load has a staged counterpart with the same
entry-time cell in the merged frame. -/
theorem staged_flatten_mem (files : List (List RawRow)) (staged : List (List StagedRow))
    (hs : stageFiles files = some staged) (f : List RawRow) (hf : f ∈ files)
    (row : RawRow) (hrow : row ∈ f) :
    ∃ srow, srow ∈ staged.flatten ∧ srow.entry_time = row.entry_time := by
  have h1 : row.entry_time ∈ (files.flatten).map (fun r => r.entry_time) :=
    List.mem_map_of_mem _ (List.mem_flatten.mpr ⟨f, hf, hrow⟩)
  rw [← stageFiles_times files staged hs] at h1
  obtain ⟨srow, hsrow, heq⟩ := List.mem_map.mp h1
  exact ⟨srow, hsrow, heq⟩

/-- C9: loading is all-or-nothing.  If any row of any source has an
unparseable profit or entry-time cell, the whole load fails with an error and
no record is produced; if every cell of a non-empty source list parses, the
load succeeds and produces one record per input row. -/
theorem load_all_or_nothing (files : List (List RawRow)) :
    ((∃ f, f ∈ files ∧ ∃ row, row ∈ f ∧
        (normalizeProfit row.profit = none ∨ parseEntryTime row.entry_time = none)) →
      ∃ e, load_and_merge_files files = Except.error e)
    ∧ (files ≠ [] →
      (∀ f, f ∈ files → ∀ row, row ∈ f →
          (normalizeProfit row.profit).isSome ∧ (parseEntryTime row.entry_time).isSome) →
      ∃ recs, load_and_merge_files files = Except.ok recs
        ∧ recs.length = (files.map List.length).sum) := by
  constructor
  · rintro ⟨f, hf, row, hrow, hbad | hbad⟩
    · exact ⟨_, load_eq_of_stage_none files (stageFiles_none_of_bad files f hf row hrow hbad)⟩
    · rcases hs : stageFiles files with _ | staged
      · exact ⟨_, load_eq_of_stage_none files hs⟩
      · by_cases he : files = []
        · subst he
          simp at hf
        · obtain ⟨srow, hsrow, heq⟩ := staged_flatten_mem files staged hs f hf row hrow
          have hnone : parseTimeCol staged.flatten = none :=
            parseTimeCol_none_of_bad _ _ hsrow (by rw [heq, hbad])
          refine ⟨("Unknown datetime string format"), ?_⟩
          rw [load_eq_of_stage_some files staged hs, if_neg he, hnone]
  · intro hne hall
    obtain ⟨staged, hs⟩ := stageFiles_total files (fun f hf row hr => (hall f hf row hr).1)
    have hmem : ∀ srow ∈ staged.flatten, (parseEntryTime srow.entry_time).isSome := by
      intro srow hsrow
      have h1 : srow.entry_time ∈ (files.flatten).map (fun r => r.entry_time) := by
        rw [← stageFiles_times files staged hs]
        exact List.mem_map_of_mem _ hsrow
      obtain ⟨row, hrowj, heq⟩ := List.mem_map.mp h1
      obtain ⟨f, hf, hrow⟩ := List.mem_flatten.mp hrowj
      rw [← heq]
      exact (hall f hf row hrow).2
    obtain ⟨recs, hp⟩ := parseTimeCol_total _ hmem
    refine ⟨recs, ?_, ?_⟩
    · rw [load_eq_of_stage_some files staged hs, if_neg hne, hp]
    · rw [parseTimeCol_length _ _ hp, List.length_flatten, stageFiles_lengths files staged hs]

/-- C9 witness: a source with the unparseable profit cell `"abc"` makes the
load fail, and a source whose single row parses loads into exactly one
record. -/
theorem load_all_or_nothing_witness :
    (∃ e, load_and_merge_files [[wBadRow]] = Except.error e)
    ∧ ∃ recs, load_and_merge_files [[wGoodRow]] = Except.ok recs
        ∧ recs.length = ([[wGoodRow]].map List.length).sum :=
  ⟨(load_all_or_nothing [[wBadRow]]).1
      ⟨[wBadRow], by simp, wBadRow, by simp, Or.inl (by with_unfolding_all rfl)⟩,
   (load_all_or_nothing [[wGoodRow]]).2 (by simp)
      (fun f hf row hr => by
        rw [List.mem_singleton.mp hf] at hr
        rw [List.mem_singleton.mp hr]
        exact ⟨by with_unfolding_all rfl, by with_unfolding_all rfl⟩)⟩

/-- The group keys of the daily aggregation are exactly the calendar dates
occurring in the input. -/
theorem datesOf_mem (df : List TradeRecord) (d : Nat) :
    d ∈ datesOf df ↔ ∃ r, r ∈ df ∧ dayOf r.entry_time = d := by
  unfold datesOf
  rw [(List.perm_insertionSort _ _).mem_iff, List.mem_dedup, List.mem_map]

/-- The group keys of the daily aggregation are strictly increasing. -/
theorem datesOf_pairwise_lt (df : List TradeRecord) :
    (datesOf df).Pairwise (fun a b => a < b) := by
  have h1 : List.Sorted (fun a b : Nat => a ≤ b) (datesOf df) :=
    List.sorted_insertionSort _ _
  have h2 : (datesOf df).Nodup :=
    ((List.perm_insertionSort _ _).nodup_iff).mpr (List.nodup_dedup _)
  exact h1.lt_of_le h2

/-- C10: the per-day profit series returned by `calculate_statistics` has
exactly one entry per distinct calendar date present in the input and its
entries are strictly ascending by date, whether or not the input records are
sorted by entry time. -/
theorem daily_series_sorted_distinct (df : List TradeRecord) :
    ((((calculate_statistics df).1).2.2.2.2).map Prod.fst).Pairwise (fun a b => a < b)
    ∧ ∀ d : Nat, (d ∈ (((calculate_statistics df).1).2.2.2.2).map Prod.fst
        ↔ ∃ r, r ∈ df ∧ dayOf r.entry_time = d) := by
  by_cases h : df = []
  · subst h
    refine ⟨?_, ?_⟩
    · simp [calculate_statistics]
    · intro d
      simp [calculate_statistics]
  · have hser : ((calculate_statistics df).1).2.2.2.2 = daily_profits (withDateColumn df) := by
      simp [calculate_statistics, h]
    have hmapfst : (daily_profits (withDateColumn df)).map Prod.fst
        = datesOf (withDateColumn df) := by
      simp [daily_profits, List.map_map, Function.comp_def]
    have hdates : datesOf (withDateColumn df) = datesOf df := by
      simp [datesOf, withDateColumn, List.map_map, Function.comp_def]
    rw [hser, hmapfst, hdates]
    exact ⟨datesOf_pairwise_lt df, fun d => datesOf_mem df d⟩
